import Mathlib

/-!
Shallow embedding of `src/game/animation.rs` (sprite animation and footstep
sound subsystem).  Durations are modelled as nanosecond counts (`Nat`),
matching `std::time::Duration`.  Rust panics (slice indexing out of bounds,
`Option::unwrap`, `%` by zero) are modelled by `Option`-returning functions
that yield `none` at the panic site.
-/

/-- Shallow embedding of the engine's `Timer` in `TimerMode::Repeating`, the
only mode this file ever constructs.  `duration` and `elapsed` are in
nanoseconds; `finished` records whether the timer completed on the most
recent tick. -/
structure Timer where
  duration : Nat
  elapsed : Nat
  finished : Bool
deriving DecidableEq, Repr

/-- `Timer::new(duration, TimerMode::Repeating)`: zero elapsed, not finished. -/
def Timer.new (duration : Nat) : Timer :=
  { duration := duration, elapsed := 0, finished := false }

/-- `Timer::tick(delta)` for a repeating, unpaused timer: add `delta` to the
elapsed time; the timer is finished exactly when the elapsed time reaches the
duration, in which case the elapsed time wraps modulo the duration (taken as 0
when the duration is 0, matching `checked_rem(..).unwrap_or(0)`). -/
def Timer.tick (t : Timer) (delta : Nat) : Timer :=
  let e := t.elapsed + delta
  if t.duration ≤ e then
    { duration := t.duration
      elapsed := if t.duration = 0 then 0 else e % t.duration
      finished := true }
  else
    { duration := t.duration, elapsed := e, finished := false }

/-- `Timer::remaining()`: duration minus elapsed. -/
def Timer.remaining (t : Timer) : Nat :=
  t.duration - t.elapsed

/-- `enum AnimationState { Idling, Walking }`. -/
inductive AnimationState where
  | Idling
  | Walking
deriving DecidableEq, Repr

/-- `struct AnimationData`: frame count, frame interval, logical state tag,
base atlas index. -/
structure AnimationData where
  frames : Nat
  interval : Nat
  state : AnimationState
  atlas_index : Nat
deriving DecidableEq, Repr

/-- `struct Animation`: timer, current frame index, index of the current
variant, and the variant list. -/
structure Animation where
  timer : Timer
  frame : Nat
  current : Nat
  animations : List AnimationData
deriving DecidableEq, Repr

/-- `Iterator::position`: index of the first element satisfying `p`. -/
def position (p : α → Bool) : List α → Option Nat
  | [] => none
  | x :: xs => if p x then some 0 else (position p xs).map (· + 1)

/-- `Animation::new`: frame 0, current 0, repeating timer over the first
variant's interval.  Rust indexes `animations[0]`, panicking on an empty
list, so the embedding takes a nonemptiness proof. -/
def Animation.new (animations : List AnimationData) (h : animations ≠ []) :
    Animation :=
  { timer := Timer.new (animations.head h).interval
    frame := 0
    current := 0
    animations := animations }

/-- `Animation::update_timer`: tick the timer by `delta`; if it did not
finish, return; otherwise advance `frame = (frame + 1) % frames` of the
current variant.  `none` models the panics of `animations[current]` out of
bounds and of `% 0`. -/
def Animation.update_timer (a : Animation) (delta : Nat) : Option Animation :=
  let t := a.timer.tick delta
  if t.finished then
    match a.animations[a.current]? with
    | none => none
    | some d =>
      if d.frames = 0 then none
      else some { a with timer := t, frame := (a.frame + 1) % d.frames }
  else some { a with timer := t }

/-- `Animation::state`: state tag of the current variant (`none` models the
indexing panic). -/
def Animation.state (a : Animation) : Option AnimationState :=
  (a.animations[a.current]?).map (·.state)

/-- `Animation::update_state`: if the state changed, switch `current` to the
first variant with the given tag (`unwrap` of `position` panics — `none` —
when absent), install a fresh repeating timer over its interval, reset the
frame to 0, then re-tick by the timer's remaining duration. -/
def Animation.update_state (a : Animation) (state : AnimationState) :
    Option Animation :=
  match a.state with
  | none => none
  | some s =>
    if s = state then some a
    else
      match position (fun d => d.state == state) a.animations with
      | none => none
      | some i =>
        match a.animations[i]? with
        | none => none
        | some data =>
          let a1 : Animation :=
            { a with
              current := i
              timer := Timer.new data.interval
              frame := 0 }
          a1.update_timer a1.timer.remaining

/-- `Animation::changed`: whether the timer finished this tick. -/
def Animation.changed (a : Animation) : Bool :=
  a.timer.finished

/-- `Animation::get_atlas_index`: base atlas index of the current variant
plus the frame index (`none` models the indexing panic). -/
def Animation.get_atlas_index (a : Animation) : Option Nat :=
  (a.animations[a.current]?).map (fun d => d.atlas_index + a.frame)

/-- Movement intent vector (`Vec2`).  The components are modelled as
rationals: the source only compares them with zero. -/
structure Vec2 where
  x : Rat
  y : Rat
deriving DecidableEq, Repr

/-- `Vec2::ZERO`. -/
def Vec2.zero : Vec2 := ⟨0, 0⟩

/-- Per-entity body of `update_animation_movement`: if `intent.x != 0` the
sprite's `flip_x` becomes `intent.x < 0`; the intent maps to `Idling` when it
is the zero vector and `Walking` otherwise, and that state is passed to
`update_state`.  Returns the new `flip_x` and animation. -/
def update_animation_movement (intent : Vec2) (flip_x : Bool)
    (a : Animation) : Option (Bool × Animation) :=
  let flip2 := if intent.x ≠ 0 then decide (intent.x < 0) else flip_x
  let animation_state :=
    if intent = Vec2.zero then AnimationState.Idling else AnimationState.Walking
  (a.update_state animation_state).map (fun a2 => (flip2, a2))

/-- Per-entity body of `update_animation_atlas`: when the animation changed
this tick, overwrite the atlas index with `get_atlas_index`; otherwise leave
it unchanged.  Returns the resulting atlas index. -/
def update_animation_atlas (a : Animation) (atlas_index : Nat) : Option Nat :=
  if a.changed then a.get_atlas_index else some atlas_index

/-- Modelled from the spec: `crate::screens::Area`, the "area state resource
(enum with two values)"; the two variants are named by the exhaustive match
in `trigger_step_sound_effect`. -/
inductive Area where
  | Outside
  | Cave
deriving DecidableEq, Repr

/-- Modelled from the spec: the two looped footstep audio handles of
`PlayerAssets` (`run_outside`, `run_cave`). -/
inductive SoundSource where
  | run_outside
  | run_cave
deriving DecidableEq, Repr

/-- The audio source chosen by `match area.get()` when spawning the step
sound. -/
def SoundSource.forArea : Area → SoundSource
  | Area.Outside => SoundSource.run_outside
  | Area.Cave => SoundSource.run_cave

/-- The engine's entity store, restricted to what `trigger_step_sound_effect`
touches: the live step-sound entities (id and audio source) and a fresh-id
counter standing for `Commands::spawn`. -/
structure SoundWorld where
  sounds : List (Nat × SoundSource)
  nextId : Nat
deriving DecidableEq, Repr

/-- `commands.entity(e).despawn_recursive()` on a step-sound entity. -/
def despawnSound (e : Nat) (w : SoundWorld) : SoundWorld :=
  { w with sounds := w.sounds.eraseP (fun p => p.1 == e) }

/-- The two `Local` parameters of `trigger_step_sound_effect`:
`last_area : Local<Area>` and `sound_entity : Local<Option<Entity>>`. -/
structure StepLocal where
  last_area : Area
  sound_entity : Option Nat
deriving DecidableEq, Repr

/-- The `for animation in &mut step_query` loop of
`trigger_step_sound_effect`: for each player animation, if its state is
`Walking` spawn a looping step sound for the current area unless one is
already playing; otherwise despawn any playing sound.  `none` models the
panic of `animation.state()` on an invalid current index. -/
def stepLoop (area : Area) (players : List Animation)
    (se : Option Nat) (w : SoundWorld) : Option (Option Nat × SoundWorld) :=
  match players with
  | [] => some (se, w)
  | a :: rest =>
    match a.state with
    | none => none
    | some st =>
      if st = AnimationState.Walking then
        match se with
        | some _ => stepLoop area rest se w
        | none =>
          stepLoop area rest (some w.nextId)
            { sounds := w.sounds ++ [(w.nextId, SoundSource.forArea area)]
              nextId := w.nextId + 1 }
      else
        match se with
        | some e => stepLoop area rest none (despawnSound e w)
        | none => stepLoop area rest none w

/-- The tail of `trigger_step_sound_effect` after the area-change check:
`*last_area = *area.get();` followed by the per-player loop. -/
def stepRest (area : Area) (players : List Animation)
    (se : Option Nat) (w : SoundWorld) : Option (StepLocal × SoundWorld) :=
  match stepLoop area players se w with
  | none => none
  | some (se2, w2) => some ({ last_area := area, sound_entity := se2 }, w2)

/-- `trigger_step_sound_effect`: if the area changed since the last tick and
a step sound is playing, despawn it and return immediately (without updating
`last_area` and without running the per-player loop); otherwise record the
area and run the loop. -/
def trigger_step_sound_effect (loc : StepLocal) (area : Area)
    (players : List Animation) (w : SoundWorld) :
    Option (StepLocal × SoundWorld) :=
  if loc.last_area ≠ area then
    match loc.sound_entity with
    | some e =>
      some ({ last_area := loc.last_area, sound_entity := none },
        despawnSound e w)
    | none => stepRest area players none w
  else stepRest area players loc.sound_entity w

/-- The world's step-sound entities are exactly the one tracked by the
`sound_entity` local (none, or a single entity with that id). -/
def Tracked (se : Option Nat) (w : SoundWorld) : Prop :=
  w.sounds.map Prod.fst = se.toList

instance (se : Option Nat) (w : SoundWorld) : Decidable (Tracked se w) := by
  unfold Tracked; infer_instance

/-- A sequence of ticks of the footstep-sound step function within one area:
one run of `trigger_step_sound_effect` per frame, observing the (single)
player's animation of that frame. -/
def runTicks (area : Area) (loc : StepLocal) (w : SoundWorld) :
    List Animation → Option (StepLocal × SoundWorld)
  | [] => some (loc, w)
  | p :: ps =>
    match trigger_step_sound_effect loc area [p] w with
    | none => none
    | some (loc2, w2) => runTicks area loc2 w2 ps

/-- One call into the `Animation` API, for stating invariants over arbitrary
interleavings of `update_timer` and `update_state`. -/
inductive AnimOp where
  | tick (delta : Nat)
  | setState (s : AnimationState)
deriving DecidableEq, Repr

/-- Apply one operation. -/
def applyOp (a : Animation) : AnimOp → Option Animation
  | AnimOp.tick delta => a.update_timer delta
  | AnimOp.setState s => a.update_state s

/-- Apply a sequence of operations, propagating panics. -/
def applyOps (a : Animation) : List AnimOp → Option Animation
  | [] => some a
  | op :: ops =>
    match applyOp a op with
    | none => none
    | some a2 => applyOps a2 ops

/-- An operation is valid for a variant list when any state it switches to is
present in the list. -/
def ValidOp (l : List AnimationData) : AnimOp → Prop
  | AnimOp.tick _ => True
  | AnimOp.setState s => ∃ d ∈ l, d.state = s

instance (l : List AnimationData) (op : AnimOp) : Decidable (ValidOp l op) := by
  cases op <;> simp only [ValidOp] <;> infer_instance

/-- Well-formedness invariant of an `Animation`: the current index is in
bounds, every variant has at least one frame, and the frame index is below
the current variant's frame count. -/
def Animation.WF (a : Animation) : Prop :=
  a.current < a.animations.length ∧
  (∀ d ∈ a.animations, 1 ≤ d.frames) ∧
  (∀ d, a.animations[a.current]? = some d → a.frame < d.frames)

instance (a : Animation) : Decidable a.WF := by
  unfold Animation.WF; infer_instance

/-- A concrete two-variant animation (idle 2 frames at interval 4, walk
6 frames at interval 2), used as the concrete input of witnesses. -/
def idleData : AnimationData :=
  { frames := 2, interval := 4, state := AnimationState.Idling, atlas_index := 0 }

/-- The walking variant of the concrete example. -/
def walkData : AnimationData :=
  { frames := 6, interval := 2, state := AnimationState.Walking, atlas_index := 8 }

/-- A one-frame walking variant, for exercising the `frames == 1` branch. -/
def walkOneData : AnimationData :=
  { frames := 1, interval := 2, state := AnimationState.Walking, atlas_index := 8 }

/-- Concrete example animation starting on the idle variant. -/
def exampleAnim : Animation :=
  Animation.new [idleData, walkData] (by simp)

/-- Concrete example animation whose walking variant has a single frame. -/
def exampleAnimOne : Animation :=
  Animation.new [idleData, walkOneData] (by simp)

/-- Concrete example animation with no walking variant at all. -/
def exampleAnimNoWalk : Animation :=
  Animation.new [idleData] (by simp)

/-- The animation obtained from `exampleAnim` by switching to `Walking`. -/
def exampleAnimWalked : Animation :=
  { timer := { duration := 2, elapsed := 0, finished := true }
    frame := 1
    current := 1
    animations := [idleData, walkData] }

theorem position_eq_none {α : Type} (p : α → Bool) (l : List α)
    (h : ∀ x ∈ l, p x = false) : position p l = none := by
  induction l with
  | nil => rfl
  | cons x xs ih =>
    simp [position, h x (by simp), ih fun y hy => h y (by simp [hy])]

theorem position_eq_some {α : Type} (p : α → Bool) (l : List α) (i : Nat)
    (h : position p l = some i) : ∃ x, l[i]? = some x ∧ p x = true := by
  induction l generalizing i with
  | nil => simp [position] at h
  | cons x xs ih =>
    by_cases hp : p x
    · simp [position, hp] at h
      exact h ▸ ⟨x, by simp, hp⟩
    · simp [position, hp] at h
      obtain ⟨j, hj, rfl⟩ := h
      obtain ⟨y, hy, hpy⟩ := ih j hj
      exact ⟨y, by simpa using hy, hpy⟩

theorem position_exists {α : Type} (p : α → Bool) (l : List α) (x : α)
    (hx : x ∈ l) (hp : p x = true) : ∃ i, position p l = some i := by
  induction l with
  | nil => cases hx
  | cons y ys ih =>
    by_cases hy : p y
    · exact ⟨0, by simp [position, hy]⟩
    · rcases List.mem_cons.mp hx with rfl | hx2
      · exact absurd hp (by simp [hy])
      · obtain ⟨i, hi⟩ := ih hx2
        exact ⟨i + 1, by simp [position, hy, hi]⟩

/-- Exact result of `update_state` when it switches variants: the re-tick by
the fresh timer's full remaining duration completes the repeating timer
(elapsed wraps to 0, finished) and advances the frame from 0 to
`1 % frames`. -/
theorem update_state_switch_eq (a : Animation) (s cur : AnimationState)
    (i : Nat) (d : AnimationData)
    (hc : a.state = some cur) (hne : cur ≠ s)
    (hi : position (fun x => x.state == s) a.animations = some i)
    (hd : a.animations[i]? = some d) (hf : 1 ≤ d.frames) :
    a.update_state s = some
      { timer := { duration := d.interval, elapsed := 0, finished := true }
        frame := 1 % d.frames
        current := i
        animations := a.animations } := by
  have hfz : d.frames ≠ 0 := by omega
  unfold Animation.update_state
  rw [hc]
  simp only [if_neg hne, hi, hd]
  unfold Animation.update_timer
  simp [Timer.new, Timer.remaining, Timer.tick, hd, hfz, Nat.mod_self]

/-- `Animation::new` establishes the well-formedness invariant. -/
theorem wf_new (l : List AnimationData) (h : l ≠ [])
    (hf : ∀ d ∈ l, 1 ≤ d.frames) : (Animation.new l h).WF := by
  obtain ⟨x, xs, rfl⟩ := List.exists_cons_of_ne_nil h
  refine ⟨by simp [Animation.new], hf, ?_⟩
  intro d hd
  simp [Animation.new] at hd ⊢
  subst hd
  exact hf x (by simp)

/-- `update_timer` never panics on a well-formed animation and preserves the
invariant, the variant list and the current index. -/
theorem wf_update_timer (a : Animation) (hw : a.WF) (delta : Nat) :
    ∃ a', a.update_timer delta = some a' ∧ a'.WF ∧
      a'.animations = a.animations ∧ a'.current = a.current := by
  obtain ⟨hcur, hall, hframe⟩ := hw
  obtain ⟨d, hd⟩ : ∃ d, a.animations[a.current]? = some d :=
    ⟨_, List.getElem?_eq_getElem hcur⟩
  have hdf : 1 ≤ d.frames := hall d (List.getElem?_mem hd)
  have hfz : d.frames ≠ 0 := by omega
  by_cases hfin : (a.timer.tick delta).finished = true
  · have heq : a.update_timer delta = some
        { a with timer := a.timer.tick delta
                 frame := (a.frame + 1) % d.frames } := by
      simp [Animation.update_timer, hfin, hd, hfz]
    refine ⟨_, heq, ⟨hcur, hall, ?_⟩, rfl, rfl⟩
    intro d' hd'
    have h2 : some d = some d' := hd.symm.trans hd'
    injection h2 with h3
    subst h3
    exact Nat.mod_lt _ (by omega)
  · rw [Bool.not_eq_true] at hfin
    have heq : a.update_timer delta =
        some { a with timer := a.timer.tick delta } := by
      simp [Animation.update_timer, hfin]
    exact ⟨_, heq, ⟨hcur, hall, hframe⟩, rfl, rfl⟩

/-- `update_state` never panics when the requested state is present in the
variant list, and preserves the invariant and the variant list. -/
theorem wf_update_state (a : Animation) (hw : a.WF) (s : AnimationState)
    (hs : ∃ d ∈ a.animations, d.state = s) :
    ∃ a', a.update_state s = some a' ∧ a'.WF ∧ a'.animations = a.animations := by
  obtain ⟨hcur, hall, hframe⟩ := hw
  obtain ⟨d0, hd0⟩ : ∃ d0, a.animations[a.current]? = some d0 :=
    ⟨_, List.getElem?_eq_getElem hcur⟩
  have hstate : a.state = some d0.state := by
    simp [Animation.state, hd0]
  by_cases hcs : d0.state = s
  · refine ⟨a, ?_, ⟨hcur, hall, hframe⟩, rfl⟩
    simp [Animation.update_state, hstate, hcs]
  · obtain ⟨dm, hdm, hdms⟩ := hs
    obtain ⟨i, hi⟩ :=
      position_exists (fun x => x.state == s) a.animations dm hdm
        (by simp [hdms])
    obtain ⟨d, hdi, hpd⟩ := position_eq_some _ _ i hi
    have hdf : 1 ≤ d.frames := hall d (List.getElem?_mem hdi)
    refine ⟨_, update_state_switch_eq a s d0.state i d hstate hcs hi hdi hdf,
      ⟨?_, hall, ?_⟩, rfl⟩
    · exact (List.getElem?_eq_some.mp hdi).1
    · intro d' hd'
      have h2 : some d = some d' := hdi.symm.trans hd'
      injection h2 with h3
      subst h3
      exact Nat.mod_lt _ (by omega)

/-- Any valid sequence of operations keeps the animation well-formed and
panic-free, and never touches the variant list. -/
theorem wf_applyOps (ops : List AnimOp) (a : Animation) (hw : a.WF)
    (hops : ∀ op ∈ ops, ValidOp a.animations op) :
    ∃ a', applyOps a ops = some a' ∧ a'.WF ∧ a'.animations = a.animations := by
  induction ops generalizing a with
  | nil => exact ⟨a, rfl, hw, rfl⟩
  | cons op ops ih =>
    have hop := hops op (by simp)
    cases op with
    | tick delta =>
      obtain ⟨a2, heq, hw2, hanim, -⟩ := wf_update_timer a hw delta
      obtain ⟨a3, heq3, hw3, hanim3⟩ := ih a2 hw2 (by
        rw [hanim]
        exact fun o ho => hops o (by simp [ho]))
      exact ⟨a3, by simp [applyOps, applyOp, heq, heq3], hw3,
        by rw [hanim3, hanim]⟩
    | setState s =>
      obtain ⟨a2, heq, hw2, hanim⟩ := wf_update_state a hw s hop
      obtain ⟨a3, heq3, hw3, hanim3⟩ := ih a2 hw2 (by
        rw [hanim]
        exact fun o ho => hops o (by simp [ho]))
      exact ⟨a3, by simp [applyOps, applyOp, heq, heq3], hw3,
        by rw [hanim3, hanim]⟩

theorem tracked_none (w : SoundWorld) (h : Tracked none w) : w.sounds = [] := by
  unfold Tracked at h
  simpa using h

theorem tracked_some (e : Nat) (w : SoundWorld) (h : Tracked (some e) w) :
    ∃ src, w.sounds = [(e, src)] := by
  unfold Tracked at h
  cases hw : w.sounds with
  | nil => rw [hw] at h; simp at h
  | cons x tl =>
    rw [hw] at h
    cases tl with
    | nil =>
      simp at h
      exact ⟨x.2, by rw [← h]⟩
    | cons y t2 => simp at h

/-- C1 counterexample: on `exampleAnim` (idling, with a 6-frame walking
variant present), switching to `Walking` leaves the frame index at 1, not 0:
the immediate re-tick is not a no-op. -/
theorem update_state_noop_counterexample :
    (∃ d ∈ exampleAnim.animations, d.state = AnimationState.Walking) ∧
    exampleAnim.state = some AnimationState.Idling ∧
    AnimationState.Idling ≠ AnimationState.Walking ∧
    (exampleAnim.update_state AnimationState.Walking).map Animation.frame ≠
      some 0 := by
  decide

/-- C1 (amended): for every `Animation` whose variant list contains a variant
for the target state (the first such variant having at least one frame),
`update_state` with a state different from the current one switches to that
variant, resetting the frame to 0 and the timer to the new variant's
interval; the immediate re-tick with the timer's own remaining duration then
completes the repeating timer, so the call ends with frame `1 mod frames`,
the timer finished and its elapsed time wrapped to 0 — the re-tick is not a
no-op. -/
theorem update_state_switch_reticks (a : Animation) (s cur : AnimationState)
    (i : Nat) (d : AnimationData)
    (hc : a.state = some cur) (hne : cur ≠ s)
    (hi : position (fun x => x.state == s) a.animations = some i)
    (hd : a.animations[i]? = some d) (hf : 1 ≤ d.frames) :
    ∃ a', a.update_state s = some a' ∧
      a'.current = i ∧
      a'.timer.duration = d.interval ∧
      a'.timer.elapsed = 0 ∧
      a'.timer.finished = true ∧
      a'.frame = 1 % d.frames ∧
      a'.animations = a.animations :=
  ⟨_, update_state_switch_eq a s cur i d hc hne hi hd hf,
    rfl, rfl, rfl, rfl, rfl, rfl⟩

/-- C1 witness: the amended statement at `exampleAnim`, switching from
`Idling` to `Walking`. -/
theorem update_state_switch_reticks_witness :
    ∃ a', exampleAnim.update_state AnimationState.Walking = some a' ∧
      a'.current = 1 ∧
      a'.timer.duration = walkData.interval ∧
      a'.timer.elapsed = 0 ∧
      a'.timer.finished = true ∧
      a'.frame = 1 % walkData.frames ∧
      a'.animations = exampleAnim.animations :=
  update_state_switch_reticks exampleAnim AnimationState.Walking
    AnimationState.Idling 1 walkData (by decide) (by decide) (by decide)
    (by decide) (by decide)

/-- C2: immediately after `update_state` switches to a different state, the
re-tick with the timer's full remaining duration completes the repeating
timer and advances the frame once: if the new variant has more than one
frame the frame index is 1 (not 0) and `changed()` is true; if it has
exactly one frame the frame index is 0. -/
theorem update_state_switch_frame_one (a : Animation) (s cur : AnimationState)
    (i : Nat) (d : AnimationData)
    (hc : a.state = some cur) (hne : cur ≠ s)
    (hi : position (fun x => x.state == s) a.animations = some i)
    (hd : a.animations[i]? = some d) :
    (1 < d.frames → ∃ a', a.update_state s = some a' ∧ a'.frame = 1 ∧
      a'.changed = true) ∧
    (d.frames = 1 → ∃ a', a.update_state s = some a' ∧ a'.frame = 0) := by
  constructor
  · intro hgt
    exact ⟨_, update_state_switch_eq a s cur i d hc hne hi hd (by omega),
      Nat.mod_eq_of_lt hgt, rfl⟩
  · intro h1
    refine ⟨_, update_state_switch_eq a s cur i d hc hne hi hd (by omega), ?_⟩
    simp [h1]

/-- C2 witness: switching `exampleAnim` to its 6-frame `Walking` variant, and
`exampleAnimOne` to its 1-frame `Walking` variant. -/
theorem update_state_switch_frame_one_witness :
    ((1 < walkOneData.frames →
      ∃ a', exampleAnimOne.update_state AnimationState.Walking = some a' ∧
        a'.frame = 1 ∧ a'.changed = true) ∧
    (walkOneData.frames = 1 →
      ∃ a', exampleAnimOne.update_state AnimationState.Walking = some a' ∧
        a'.frame = 0)) :=
  update_state_switch_frame_one exampleAnimOne AnimationState.Walking
    AnimationState.Idling 1 walkOneData (by decide) (by decide) (by decide)
    (by decide)

/-- C3: the atlas sync writes `variant base index + frame` exactly when the
animation's timer completed this tick (`changed()`), and leaves the atlas
index unchanged otherwise. -/
theorem atlas_sync_iff_changed (a : Animation) (idx : Nat) (d : AnimationData)
    (hd : a.animations[a.current]? = some d) :
    (a.changed = true →
      update_animation_atlas a idx = some (d.atlas_index + a.frame)) ∧
    (a.changed = false → update_animation_atlas a idx = some idx) := by
  constructor
  · intro hch
    simp [update_animation_atlas, hch, Animation.get_atlas_index, hd]
  · intro hch
    simp [update_animation_atlas, hch]

/-- C3 witness: on the freshly constructed `exampleAnim` (timer not finished)
the atlas index 55 is left unchanged. -/
theorem atlas_sync_iff_changed_witness :
    (exampleAnim.changed = true →
      update_animation_atlas exampleAnim 55 =
        some (idleData.atlas_index + exampleAnim.frame)) ∧
    (exampleAnim.changed = false →
      update_animation_atlas exampleAnim 55 = some 55) :=
  atlas_sync_iff_changed exampleAnim 55 idleData (by decide)

/-- C6: for every animation whose current variant has at least one frame and
every elapsed delta, `update_timer` adds the delta to the active timer, and
exactly when the timer completes this tick the frame becomes
`(frame + 1) mod frames` while the elapsed time wraps modulo the duration
(repeating semantics); otherwise the frame is unchanged and the elapsed time
has simply grown by the delta. -/
theorem update_timer_spec (a : Animation) (d : AnimationData) (delta : Nat)
    (hd : a.animations[a.current]? = some d) (hf : 1 ≤ d.frames) :
    ∃ a', a.update_timer delta = some a' ∧
      a'.animations = a.animations ∧
      a'.current = a.current ∧
      a'.timer.duration = a.timer.duration ∧
      (a'.timer.finished = true ↔ a.timer.duration ≤ a.timer.elapsed + delta) ∧
      (a'.timer.finished = true →
        a'.frame = (a.frame + 1) % d.frames ∧
        a'.timer.elapsed = if a.timer.duration = 0 then 0
          else (a.timer.elapsed + delta) % a.timer.duration) ∧
      (a'.timer.finished = false →
        a'.frame = a.frame ∧ a'.timer.elapsed = a.timer.elapsed + delta) := by
  have hfz : d.frames ≠ 0 := by omega
  by_cases hc : a.timer.duration ≤ a.timer.elapsed + delta
  · have htick : a.timer.tick delta =
        { duration := a.timer.duration
          elapsed := if a.timer.duration = 0 then 0
            else (a.timer.elapsed + delta) % a.timer.duration
          finished := true } := by
      simp [Timer.tick, hc]
    have heq : a.update_timer delta = some
        { a with timer := a.timer.tick delta
                 frame := (a.frame + 1) % d.frames } := by
      simp [Animation.update_timer, htick, hd, hfz]
    refine ⟨_, heq, rfl, rfl, by simp [htick], by simp [htick, hc], ?_, ?_⟩
    · intro
      exact ⟨rfl, by simp [htick]⟩
    · intro hfalse
      simp [htick] at hfalse
  · have htick : a.timer.tick delta =
        { duration := a.timer.duration
          elapsed := a.timer.elapsed + delta
          finished := false } := by
      simp [Timer.tick, hc]
    have heq : a.update_timer delta =
        some { a with timer := a.timer.tick delta } := by
      simp [Animation.update_timer, htick]
    refine ⟨_, heq, rfl, rfl, by simp [htick], by simp [htick, hc], ?_, ?_⟩
    · intro htrue
      simp [htick] at htrue
    · intro
      exact ⟨rfl, by simp [htick]⟩

/-- C6 witness: ticking `exampleAnim` (idle variant, duration 4) by 4
completes the timer. -/
theorem update_timer_spec_witness :
    ∃ a', exampleAnim.update_timer 4 = some a' ∧
      a'.animations = exampleAnim.animations ∧
      a'.current = exampleAnim.current ∧
      a'.timer.duration = exampleAnim.timer.duration ∧
      (a'.timer.finished = true ↔
        exampleAnim.timer.duration ≤ exampleAnim.timer.elapsed + 4) ∧
      (a'.timer.finished = true →
        a'.frame = (exampleAnim.frame + 1) % idleData.frames ∧
        a'.timer.elapsed = if exampleAnim.timer.duration = 0 then 0
          else (exampleAnim.timer.elapsed + 4) % exampleAnim.timer.duration) ∧
      (a'.timer.finished = false →
        a'.frame = exampleAnim.frame ∧
        a'.timer.elapsed = exampleAnim.timer.elapsed + 4) :=
  update_timer_spec exampleAnim idleData 4 (by decide) (by decide)

/-- C7: from `Animation::new` on a non-empty variant list in which every
variant has at least one frame, any sequence of `update_timer` and
`update_state` calls (the latter only with states present in the list)
keeps the current index a valid index into the variant list and the frame
index strictly below the current variant's frame count. -/
theorem animation_invariant_sequences (l : List AnimationData) (h : l ≠ [])
    (hf : ∀ d ∈ l, 1 ≤ d.frames) (ops : List AnimOp)
    (hops : ∀ op ∈ ops, ValidOp l op) :
    ∃ a', applyOps (Animation.new l h) ops = some a' ∧
      a'.current < a'.animations.length ∧
      (∀ d, a'.animations[a'.current]? = some d → a'.frame < d.frames) := by
  obtain ⟨a', heq, hw, hanim⟩ :=
    wf_applyOps ops (Animation.new l h) (wf_new l h hf) hops
  exact ⟨a', heq, hw.1, hw.2.2⟩

/-- C7 witness: a concrete mixed sequence of ticks and state switches over
the two-variant example list. -/
theorem animation_invariant_sequences_witness :
    ∃ a', applyOps (Animation.new [idleData, walkData] (by simp))
        [AnimOp.tick 3, AnimOp.setState AnimationState.Walking, AnimOp.tick 2,
          AnimOp.setState AnimationState.Idling, AnimOp.tick 10] = some a' ∧
      a'.current < a'.animations.length ∧
      (∀ d, a'.animations[a'.current]? = some d → a'.frame < d.frames) :=
  animation_invariant_sequences [idleData, walkData] (by simp) (by decide)
    [AnimOp.tick 3, AnimOp.setState AnimationState.Walking, AnimOp.tick 2,
      AnimOp.setState AnimationState.Idling, AnimOp.tick 10] (by decide)

/-- C8: if no variant in the list carries the requested state tag and that
state differs from the current one, `update_state` hits the `unwrap` of
`position` and aborts — modelled as `none`. -/
theorem update_state_missing_state_aborts (a : Animation)
    (s cur : AnimationState)
    (hc : a.state = some cur) (hne : cur ≠ s)
    (habs : ∀ d ∈ a.animations, d.state ≠ s) :
    a.update_state s = none := by
  have hpos : position (fun x => x.state == s) a.animations = none :=
    position_eq_none _ _ fun x hx => by simp [habs x hx]
  simp [Animation.update_state, hc, hne, hpos]

/-- C8 witness: asking the idle-only `exampleAnimNoWalk` for `Walking`
aborts. -/
theorem update_state_missing_state_aborts_witness :
    exampleAnimNoWalk.update_state AnimationState.Walking = none :=
  update_state_missing_state_aborts exampleAnimNoWalk AnimationState.Walking
    AnimationState.Idling (by decide) (by decide) (by decide)

/-- C9: the movement step maps the zero intent vector to `Idling` and every
nonzero intent to `Walking`, and passes exactly that state to the
animation's `update_state` (the boolean component being the sprite flip). -/
theorem movement_maps_intent_to_state (intent : Vec2) (flip : Bool)
    (a : Animation) :
    ∃ b : Bool, update_animation_movement intent flip a =
      (a.update_state (if intent = Vec2.zero then AnimationState.Idling
        else AnimationState.Walking)).map (fun a2 => (b, a2)) :=
  ⟨_, rfl⟩

/-- C10: whenever the movement step produces a result, the resulting flip
flag is `true` (facing left) when the intent's X component is negative,
`false` (facing right) when it is positive, and unchanged when the intent is
the zero vector. -/
theorem movement_flip_sign (intent : Vec2) (flip : Bool) (a : Animation)
    (b : Bool) (a2 : Animation)
    (h : update_animation_movement intent flip a = some (b, a2)) :
    (intent.x < 0 → b = true) ∧
    (0 < intent.x → b = false) ∧
    (intent = Vec2.zero → b = flip) := by
  unfold update_animation_movement at h
  rw [Option.map_eq_some'] at h
  obtain ⟨a3, ha3, hpair⟩ := h
  rw [Prod.ext_iff] at hpair
  have hb : b = if intent.x ≠ 0 then decide (intent.x < 0) else flip :=
    hpair.1.symm
  refine ⟨?_, ?_, ?_⟩
  · intro hlt
    rw [hb]
    simp [ne_of_lt hlt, hlt]
  · intro hgt
    rw [hb]
    simp [ne_of_gt hgt, not_lt.mpr (le_of_lt hgt)]
  · intro hz
    have hx0 : intent.x = 0 := by rw [hz]; simp [Vec2.zero]
    rw [hb]
    simp [hx0]

/-- C10 witness: intent `(-1, 0)` on `exampleAnim` flips the sprite to face
left. -/
theorem movement_flip_sign_witness :
    ((Vec2.mk (-1) 0).x < 0 → true = true) ∧
    (0 < (Vec2.mk (-1) 0).x → true = false) ∧
    (Vec2.mk (-1) 0 = Vec2.zero → true = false) :=
  movement_flip_sign (Vec2.mk (-1) 0) false exampleAnim true
    exampleAnimWalked (by decide)

/-- One tick of the footstep-sound step function in an unchanged area with a
tracked world: the correspondence is kept, the area local is recorded, a
`Walking` state ends with exactly one sound entity (and if one was already
playing the world and the tracked entity are untouched — no spawn), and any
other state ends with none. -/
theorem step_sound_tick (loc : StepLocal) (area : Area)
    (p : Animation) (st : AnimationState) (w : SoundWorld)
    (harea : loc.last_area = area)
    (htr : Tracked loc.sound_entity w)
    (hp : p.state = some st) :
    ∃ loc' w',
      trigger_step_sound_effect loc area [p] w = some (loc', w') ∧
      Tracked loc'.sound_entity w' ∧
      loc'.last_area = area ∧
      (st = AnimationState.Walking →
        w'.sounds.length = 1 ∧
        (loc.sound_entity.isSome = true →
          w' = w ∧ loc'.sound_entity = loc.sound_entity)) ∧
      (st ≠ AnimationState.Walking → w'.sounds = []) := by
  cases hse : loc.sound_entity with
  | some e =>
    obtain ⟨src, hsrc⟩ := tracked_some e w (hse ▸ htr)
    by_cases hst : st = AnimationState.Walking
    · have heq : trigger_step_sound_effect loc area [p] w =
          some ({ last_area := area, sound_entity := some e }, w) := by
        simp [trigger_step_sound_effect, harea, hse, stepRest, stepLoop, hp,
          hst]
      refine ⟨_, _, heq, hse ▸ htr, rfl,
        fun _ => ⟨?_, fun _ => ⟨rfl, rfl⟩⟩, fun hn => absurd hst hn⟩
      rw [hsrc]
      rfl
    · have herase : despawnSound e w =
          { sounds := [], nextId := w.nextId } := by
        simp [despawnSound, hsrc, List.eraseP_cons]
      have heq : trigger_step_sound_effect loc area [p] w =
          some ({ last_area := area, sound_entity := none },
            despawnSound e w) := by
        simp [trigger_step_sound_effect, harea, hse, stepRest, stepLoop, hp,
          hst]
      refine ⟨_, _, heq, ?_, rfl, fun hw => absurd hw hst, fun _ => ?_⟩
      · simp [Tracked, herase]
      · rw [herase]
  | none =>
    have hsnil : w.sounds = [] := tracked_none w (hse ▸ htr)
    by_cases hst : st = AnimationState.Walking
    · have heq : trigger_step_sound_effect loc area [p] w =
          some ({ last_area := area, sound_entity := some w.nextId },
            { sounds := w.sounds ++ [(w.nextId, SoundSource.forArea area)]
              nextId := w.nextId + 1 }) := by
        simp [trigger_step_sound_effect, harea, hse, stepRest, stepLoop, hp,
          hst]
      refine ⟨_, _, heq, ?_, rfl, fun _ => ⟨?_, fun hsome => ?_⟩,
        fun hn => absurd hst hn⟩
      · simp [Tracked, hsnil]
      · simp [hsnil]
      · simp [hse] at hsome
    · have heq : trigger_step_sound_effect loc area [p] w =
          some ({ last_area := area, sound_entity := none }, w) := by
        simp [trigger_step_sound_effect, harea, hse, stepRest, stepLoop, hp,
          hst]
      exact ⟨_, _, heq, hse ▸ htr, rfl, fun hw => absurd hw hst,
        fun _ => hsnil⟩

/-- C4: over every sequence of ticks within one area, starting from a world
whose step-sound entities are exactly those tracked by the `sound_entity`
local: the correspondence persists; after a tick whose player state was
`Walking` exactly one step-sound entity exists, and after one whose state
was not `Walking` the count is zero (the last tick's state decides the final
count, and every prefix of a sequence is itself such a sequence); and while
the state is `Walking` throughout with a sound already playing, the world is
never touched — a new sound is spawned only when none is playing. -/
theorem step_sound_walking_invariant (area : Area) (ps : List Animation)
    (sts : List AnimationState) (loc : StepLocal) (w : SoundWorld)
    (harea : loc.last_area = area)
    (htr : Tracked loc.sound_entity w)
    (hstates : List.Forall₂ (fun p st => p.state = some st) ps sts) :
    ∃ loc' w',
      runTicks area loc w ps = some (loc', w') ∧
      Tracked loc'.sound_entity w' ∧
      loc'.last_area = area ∧
      (∀ st, sts.getLast? = some st →
        (st = AnimationState.Walking → w'.sounds.length = 1) ∧
        (st ≠ AnimationState.Walking → w'.sounds = [])) ∧
      ((∀ st ∈ sts, st = AnimationState.Walking) →
        loc.sound_entity.isSome = true →
        w' = w ∧ loc'.sound_entity = loc.sound_entity) := by
  induction hstates generalizing loc w with
  | nil =>
    exact ⟨loc, w, rfl, htr, harea, fun st hst => by simp at hst,
      fun _ _ => ⟨rfl, rfl⟩⟩
  | cons hp hrest ih =>
    rename_i p st ps2 sts2
    obtain ⟨loc2, w2, heq2, htr2, harea2, hwalk2, hnot2⟩ :=
      step_sound_tick loc area p st w harea htr hp
    obtain ⟨loc', w', heq', htr', harea', hlast', hall'⟩ :=
      ih loc2 w2 harea2 htr2
    refine ⟨loc', w', ?_, htr', harea', ?_, ?_⟩
    · simp [runTicks, heq2, heq']
    · intro stl hstl
      cases hsts2 : sts2 with
      | nil =>
        subst hsts2
        simp at hstl
        subst hstl
        have hfin : loc' = loc2 ∧ w' = w2 := by
          cases hrest
          simp [runTicks] at heq'
          exact ⟨heq'.1.symm, heq'.2.symm⟩
        rw [hfin.2]
        exact ⟨fun hw => (hwalk2 hw).1, hnot2⟩
      | cons s2 t2 =>
        subst hsts2
        rw [List.getLast?_cons_cons] at hstl
        exact hlast' stl hstl
    · intro hallw hsome
      have hstw : st = AnimationState.Walking := hallw st (by simp)
      obtain ⟨hw2, hse2⟩ := (hwalk2 hstw).2 hsome
      have hsome2 : loc2.sound_entity.isSome = true := by
        rw [hse2]; exact hsome
      obtain ⟨hw', hse'⟩ := hall' (fun s hs => hallw s (by simp [hs])) hsome2
      exact ⟨hw'.trans hw2, hse'.trans hse2⟩

/-- C4 witness: two consecutive walking ticks outside, starting with no
sound: exactly one sound entity exists afterwards. -/
theorem step_sound_walking_invariant_witness :
    ∃ loc' w',
      runTicks Area.Outside ⟨Area.Outside, none⟩ ⟨[], 0⟩
        [exampleAnimWalked, exampleAnimWalked] = some (loc', w') ∧
      Tracked loc'.sound_entity w' ∧
      loc'.last_area = Area.Outside ∧
      (∀ st, [AnimationState.Walking, AnimationState.Walking].getLast? =
          some st →
        (st = AnimationState.Walking → w'.sounds.length = 1) ∧
        (st ≠ AnimationState.Walking → w'.sounds = [])) ∧
      ((∀ st ∈ [AnimationState.Walking, AnimationState.Walking],
          st = AnimationState.Walking) →
        (none : Option Nat).isSome = true →
        w' = ⟨[], 0⟩ ∧ loc'.sound_entity = none) :=
  step_sound_walking_invariant Area.Outside
    [exampleAnimWalked, exampleAnimWalked]
    [AnimationState.Walking, AnimationState.Walking]
    ⟨Area.Outside, none⟩ ⟨[], 0⟩ (by decide) (by decide)
    (List.Forall₂.cons (by decide)
      (List.Forall₂.cons (by decide) List.Forall₂.nil))

/-- C5: on a tick where the current area differs from the last observed one
while a sound entity is playing, that entity is despawned immediately and
nothing else happens: the local drops to `none`, no step-sound entity
remains in the world (no leak), nothing is spawned, and the result is
independent of the player query — the area-change check preempts the
per-entity walking check. -/
theorem step_sound_area_change_despawns (loc : StepLocal) (area : Area)
    (e : Nat) (w : SoundWorld) (players : List Animation)
    (hne : loc.last_area ≠ area) (hse : loc.sound_entity = some e)
    (htr : Tracked loc.sound_entity w) :
    ∃ loc' w',
      trigger_step_sound_effect loc area players w = some (loc', w') ∧
      loc'.sound_entity = none ∧
      w'.sounds = [] ∧
      w'.nextId = w.nextId ∧
      trigger_step_sound_effect loc area players w =
        trigger_step_sound_effect loc area [] w := by
  obtain ⟨src, hsrc⟩ := tracked_some e w (hse ▸ htr)
  have herase : despawnSound e w = { sounds := [], nextId := w.nextId } := by
    simp [despawnSound, hsrc, List.eraseP_cons]
  have heq : ∀ ps : List Animation,
      trigger_step_sound_effect loc area ps w =
        some ({ last_area := loc.last_area, sound_entity := none },
          despawnSound e w) := by
    intro ps
    simp [trigger_step_sound_effect, hne, hse]
  refine ⟨_, _, heq players, rfl, by rw [herase], by rw [herase], ?_⟩
  rw [heq players, heq []]

/-- C5 witness: walking player, sound entity 7 playing outside, area now the
cave: entity 7 is despawned and nothing is spawned. -/
theorem step_sound_area_change_despawns_witness :
    ∃ loc' w',
      trigger_step_sound_effect ⟨Area.Outside, some 7⟩ Area.Cave
        [exampleAnimWalked] ⟨[(7, SoundSource.run_outside)], 8⟩ =
        some (loc', w') ∧
      loc'.sound_entity = none ∧
      w'.sounds = [] ∧
      w'.nextId = (⟨[(7, SoundSource.run_outside)], 8⟩ : SoundWorld).nextId ∧
      trigger_step_sound_effect ⟨Area.Outside, some 7⟩ Area.Cave
        [exampleAnimWalked] ⟨[(7, SoundSource.run_outside)], 8⟩ =
      trigger_step_sound_effect ⟨Area.Outside, some 7⟩ Area.Cave
        [] ⟨[(7, SoundSource.run_outside)], 8⟩ :=
  step_sound_area_change_despawns ⟨Area.Outside, some 7⟩ Area.Cave 7
    ⟨[(7, SoundSource.run_outside)], 8⟩ [exampleAnimWalked] (by decide)
    (by decide) (by decide)
